import Mathlib

/-!
Shallow embedding of the Effectively Wild wiki autofill script
(src/ew-wiki-autofill.py) and proofs of the specified properties.

Python strings are modelled as lists of characters (`Str`).  The Python
string operations used by the script (startswith, in, replace, split,
rstrip, strip, int, find) are embedded as executable Lean functions on
`Str`.  Stateful pieces (the episode dictionary, the email cache) are
modelled by explicit state passing, and code that can raise an exception
is modelled with `Option` or `Except`.
-/

namespace EW

/-- Python strings, modelled as lists of unicode characters. -/
abbrev Str := List Char

/-- Python `s.startswith(p)` on our string model. -/
def startsWith : Str → Str → Bool
  | _, [] => true
  | [], _ :: _ => false
  | c :: cs, p :: ps => c == p && startsWith cs ps

/-- Python `pat in s` (substring containment) on our string model. -/
def containsSub : Str → Str → Bool
  | [], pat => pat.isEmpty
  | c :: cs, pat => startsWith (c :: cs) pat || containsSub cs pat

/-- Python `s.replace(old, new)` for single-character arguments:
a character-wise map. -/
def pyReplace (old new : Char) (s : Str) : Str :=
  s.map (fun c => if c = old then new else c)

/-- The whitespace characters recognised by Python `str.split()` and
`str.strip()` (the ASCII ones, which are the only ones the feed uses). -/
def pyWs (c : Char) : Bool :=
  c == ' ' || c == '\t' || c == '\n' || c == '\r' || c == '\x0b' || c == '\x0c'

/-- Python `s.strip()`: drop whitespace from both ends. -/
def pyStrip (s : Str) : Str :=
  ((s.dropWhile pyWs).reverse.dropWhile pyWs).reverse

/-- Worker for Python `s.split()`: walk the string accumulating the current
word (reversed); whitespace ends the current word, and empty words are
dropped, exactly as `split` with no argument behaves. -/
def pySplitAux : Str → Str → List Str
  | [], [] => []
  | [], a :: as => [(a :: as).reverse]
  | c :: cs, acc =>
    if pyWs c = true then
      match acc with
      | [] => pySplitAux cs []
      | a :: as => (a :: as).reverse :: pySplitAux cs []
    else pySplitAux cs (c :: acc)

/-- Python `s.split()` with no argument: split on whitespace runs. -/
def pySplit (s : Str) : List Str := pySplitAux s []

/-- Python `s.rstrip(":")`: drop every trailing colon. -/
def pyRstripColon (s : Str) : Str :=
  (s.reverse.dropWhile (fun c => c == ':')).reverse

/-- Validity of the tail of a Python integer literal after its first digit:
digits, with single underscores allowed only between digits. -/
def digitsTail : Str → Bool
  | [] => true
  | [c] => if c = '_' then false else c.isDigit
  | c :: d :: ds =>
    if c = '_' then d.isDigit && digitsTail ds
    else c.isDigit && digitsTail (d :: ds)

/-- Validity of the digit part of a Python integer literal: nonempty, a
digit first, then `digitsTail`. -/
def numBody : Str → Bool
  | [] => false
  | c :: cs => c.isDigit && digitsTail cs

/-- Base-10 value of a digit string (most significant digit first). -/
def natOfDigits (s : Str) : Nat :=
  s.foldl (fun a c => 10 * a + (c.toNat - 48)) 0

/-- Value of a valid digit part, underscores removed. -/
def intValOf (s : Str) : Int :=
  (natOfDigits (s.filter (fun c => !(c == '_'))) : Nat)

/-- Core of Python `int(s)` once surrounding whitespace is stripped:
an optional sign followed by a valid digit part, otherwise a
`ValueError`, modelled as `none`. -/
def pyIntCore : Str → Option Int
  | [] => none
  | c :: rest =>
    if c = '+' then (if numBody rest = true then some (intValOf rest) else none)
    else if c = '-' then (if numBody rest = true then some (-intValOf rest) else none)
    else if numBody (c :: rest) = true then some (intValOf (c :: rest)) else none

/-- Python `int(s)` for a string argument. -/
def pyInt (s : Str) : Option Int := pyIntCore (pyStrip s)

/-- The character of a single decimal digit value. -/
def dChar (d : Nat) : Char := Char.ofNat (48 + d)

/-- The decimal numeral of a natural number, most significant digit
first (what Python string formatting produces for it). -/
def decimalRepr (n : Nat) : Str :=
  if n = 0 then ['0'] else ((Nat.digits 10 n).map dChar).reverse

/-- Decimal rendering of a Python int (episode numbers in f-strings). -/
def intRepr (n : Int) : Str :=
  if n < 0 then '-' :: decimalRepr (-n).toNat else decimalRepr n.toNat

/-- `EFFECTIVELY_WILD_WIKI` constant of the script. -/
def ewWiki : Str := "https://effectivelywild.fandom.com/wiki/".data

/-- First FanGraphs player-profile URL prefix recognised by `_wikify_href`. -/
def fgPlayers : Str := "https://www.fangraphs.com/players/".data

/-- Second FanGraphs player-profile URL prefix recognised by `_wikify_href`. -/
def fgStatss : Str := "http://www.fangraphs.com/statss.aspx?playerid=".data

/-- English Wikipedia URL prefix recognised by `_wikify_href`. -/
def enWikipedia : Str := "https://en.wikipedia.org/wiki/".data

/-- Embedding of `EWEpisode._wikify_href` (lines 112 to 124 of the script).
Classifies an href together with its anchor text into wiki markup. -/
def wikifyHref (target anchor : Str) : Str :=
  if startsWith target fgPlayers || startsWith target fgStatss then
    "[[".data ++ anchor ++ "]]".data
  else if startsWith target ewWiki then
    "[".data ++ pyReplace '_' ' ' (target.drop 40) ++ "|".data ++ anchor ++ "]".data
  else if startsWith target enWikipedia then
    "\x7b\x7bW|".data ++ pyReplace '_' ' ' (target.drop 30) ++ "|".data ++ anchor ++ "\x7d\x7d".data
  else
    "[".data ++ target ++ " ".data ++ anchor ++ "]".data

/-- Embedding of `EWEpisode._clean_smart_quotes` (lines 149 to 153).
The first regex substitution replaces every smart double quote by an ASCII
double quote; the second replaces every smart apostrophe by an ASCII
apostrophe.  A substitution of a single-character class is a character map. -/
def cleanSmartQuotes (s : Str) : Str :=
  let noSmartDquotes := s.map (fun c => if c = '“' ∨ c = '”' then '"' else c)
  noSmartDquotes.map (fun c => if c = '’' then '\'' else c)

/-- Lead-in phrase "Ben Lindbergh and Meg Rowley" tested by `_parse_episode`. -/
def benMegLeadAnd : Str := "Ben Lindbergh and Meg Rowley".data

/-- Lead-in phrase "Ben Lindbergh, Meg Rowley" tested by `_parse_episode`. -/
def benMegLeadComma : Str := "Ben Lindbergh, Meg Rowley".data

/-- Host line used for even episode numbers. -/
def megBenHosts : Str := "[[Meg Rowley]]<br>[[Ben Lindbergh]]".data

/-- Host line used for odd episode numbers. -/
def benMegHosts : Str := "[[Ben Lindbergh]]<br>[[Meg Rowley]]".data

/-- Category tag for Ben Lindbergh episodes. -/
def benCat : Str := "[[Category:Ben Lindbergh Episodes]]".data

/-- Category tag for Meg Rowley episodes. -/
def megCat : Str := "[[Category:Meg Rowley Episodes]]".data

/-- Embedding of the host-detection block of `EWEpisode._parse_episode`
(lines 173 to 190): returns the hosts field and the list of host category
tags derived from the episode number and the summary text. -/
def parseHosts (number : Int) (summary : Str) : Str × List Str :=
  if startsWith summary benMegLeadAnd || startsWith summary benMegLeadComma then
    (if number % 2 = 0 then megBenHosts else benMegHosts, [benCat, megCat])
  else
    ([],
      (if containsSub summary "Ben Lindbergh".data then [benCat] else []) ++
      (if containsSub summary "Meg Rowley".data then [megCat] else []))

/-- Audio segments extracted from an episode description: the value object
built by `EWEpisode._find_audio_links` (lines 288 to 293). -/
structure Audio where
  intro : Option Str
  outro : Option Str
  inter : List Str
deriving DecidableEq

/-- Embedding of the per-line body of `EWEpisode._find_audio_links`
(lines 308 to 318): locate the first colon (skip the line when there is
none), take the text two characters past it, and classify the line by
substring match, intro first, then outro, otherwise interstitial. -/
def processAudioLine (a : Audio) (line : Str) : Audio :=
  match line.findIdx? (fun c => c == ':') with
  | none => a
  | some idx =>
    let text := line.drop (idx + 2)
    if containsSub line "intro".data then { a with intro := some text }
    else if containsSub line "outro".data then { a with outro := some text }
    else { a with inter := a.inter ++ [text] }

/-- The line loop of `EWEpisode._find_audio_links` over the rebuilt text of
one audio paragraph. -/
def processAudioLines (a : Audio) (lines : List Str) : Audio :=
  lines.foldl processAudioLine a

/-- Episode-number extraction from a feed title, as `_split_feed` does it
(lines 144 to 146): 4th whitespace token, trailing colons stripped, parsed
by `int`.  A missing 4th token (IndexError) or a failing parse
(ValueError) is an uncaught exception, modelled as `none`. -/
def extractEpisode (title : Str) : Option Int :=
  ((pySplit title).get? 3).bind (fun w => pyInt (pyRstripColon w))

/-- One RSS feed item as `_split_feed` reads it: the text of its title
element and of its content-encoded description element, either of which
may be absent. -/
structure FeedItem where
  title : Option Str
  description : Option Str
deriving DecidableEq

/-- The episode index `self.episodes`: a mapping from episode number to
feed item. -/
abbrev EpMap := Int → Option FeedItem

/-- Dictionary assignment `self.episodes[n] = item`: later writes to the
same key overwrite earlier ones. -/
def updateEp (m : EpMap) (k : Int) (v : FeedItem) : EpMap :=
  fun j => if j = k then some v else m j

/-- The empty episode index. -/
def emptyEpMap : EpMap := fun _ => none

/-- Embedding of the loop of `EWEpisode._split_feed` (lines 133 to 147):
an item without a title is skipped, the first item (among titled ones)
without a description stops the scan, and otherwise the item is stored
under its extracted episode number; a failing extraction propagates as an
exception (`Except.error`). -/
def splitFeedAux : List FeedItem → EpMap → Except Unit EpMap
  | [], m => .ok m
  | item :: rest, m =>
    match item.title with
    | none => splitFeedAux rest m
    | some t =>
      match item.description with
      | none => .ok m
      | some _ =>
        match extractEpisode t with
        | none => .error ()
        | some n => splitFeedAux rest (updateEp m n item)

/-- `EWEpisode._split_feed`, starting from the empty episode index. -/
def splitFeed (items : List FeedItem) : Except Unit EpMap :=
  splitFeedAux items emptyEpMap

/-- Embedding of the missing-episode loop of `EWEpisode._parse_feed`
(lines 72 to 81): walk the episode numbers (sorted descending by the
caller), collect each number whose wiki page does not exist, and stop at
the first existing page unless `checkAll` is set.  The wiki existence
check is passed in as an oracle. -/
def missingEpisodes (checkAll : Bool) (pageExists : Int → Bool) : List Int → List Int
  | [] => []
  | n :: rest =>
    if pageExists n = false then n :: missingEpisodes checkAll pageExists rest
    else if checkAll = false then []
    else missingEpisodes checkAll pageExists rest

/-- The episode numbers on which the loop of `_parse_feed` performs a wiki
existence check, in order. -/
def checkedEpisodes (checkAll : Bool) (pageExists : Int → Bool) : List Int → List Int
  | [] => []
  | n :: rest =>
    if pageExists n = false then n :: checkedEpisodes checkAll pageExists rest
    else if checkAll = false then [n]
    else n :: checkedEpisodes checkAll pageExists rest

/-- The section header line of the email block. -/
def emailHeader : Str := "==Email Questions==".data

/-- The fixed placeholder block `no_emails_found` of `_find_emails`
(lines 358 to 365). -/
def noEmailsFound : List Str :=
  [emailHeader,
   "* \x7bFor EMAIL episodes: copy the question and who asked it from the [https://docs.google.com/spreadsheets/d/1-8lpspHQuR5GK7S_nNtGunLGrx60QnSa8XLG_wvRb4Q/edit#gid=0 question database], and link prominent teams and players.\x7d".data,
   []]

/-- Embedding of the record scan of `EWEpisode._find_emails`
(lines 367 to 377): a matching record contributes a blank line and a
bullet line, a record with a smaller episode number stops the scan, and
any other record is skipped. -/
def findEmailsScan (number : Int) : List (Int × Str) → List Str
  | [] => []
  | (k, q) :: rest =>
    if k = number then
      ([] : Str) :: ("* ".data ++ pyStrip q) :: findEmailsScan number rest
    else if k < number then []
    else findEmailsScan number rest

/-- Embedding of `EWEpisode._find_emails` given a loaded record list
(lines 354 to 384, the pure part): scan, then either return the
placeholder block, or append the header and reverse. -/
def findEmails (db : List (Int × Str)) (number : Int) : List Str :=
  if findEmailsScan number db = [] then noEmailsFound
  else (findEmailsScan number db ++ [emailHeader]).reverse

/-- The spreadsheet download response seen by `_load_emails`: an HTTP
status code and the CSV rows of the body (the CSV reader itself is
standard library code, so the body is modelled already split into rows). -/
structure HttpResponse where
  status : Int
  rows : List (List Str)

/-- Embedding of the CSV row loop of `EWEpisode._load_emails`
(lines 345 to 352): skip a row whose second column is literally "Episode"
or empty, skip a row whose second column does not parse as an int
(ValueError caught), and otherwise keep (episode number, third column).
A row too short for the accessed columns would raise an IndexError,
modelled as `Except.error`. -/
def parseRows : List (List Str) → Except Unit (List (Int × Str))
  | [] => .ok []
  | row :: rest =>
    match row.get? 1 with
    | none => .error ()
    | some c1 =>
      if c1 = "Episode".data ∨ c1 = [] then parseRows rest
      else
        match pyInt c1 with
        | none => parseRows rest
        | some n =>
          match row.get? 2 with
          | none => .error ()
          | some c2 =>
            match parseRows rest with
            | .error e => .error e
            | .ok tail => .ok ((n, c2) :: tail)

/-- Embedding of `EWEpisode._load_emails` (lines 338 to 352): only a 2xx
response appends parsed records to `self.emails`; any other status leaves
the cache untouched. -/
def loadEmails (resp : HttpResponse) (emails : List (Int × Str)) :
    Except Unit (List (Int × Str)) :=
  if 200 ≤ resp.status ∧ resp.status < 300 then
    match parseRows resp.rows with
    | .error e => .error e
    | .ok parsed => .ok (emails ++ parsed)
  else .ok emails

/-- Embedding of `EWEpisode._find_emails` including its lazy-load guard
(lines 355 to 356): when the cache is empty the download is attempted
first.  Returns the generated section, the cache after the call, and
whether a download was attempted. -/
def findEmailsWithCache (emails : List (Int × Str)) (resp : HttpResponse)
    (number : Int) : Except Unit (List Str × List (Int × Str) × Bool) :=
  if emails = [] then
    match loadEmails resp emails with
    | .error e => .error e
    | .ok loaded => .ok (findEmails loaded number, loaded, true)
  else .ok (findEmails emails number, emails, false)

/-- How a Python f-string renders an `Optional[str]` value: `None` prints
as the four characters "None". -/
def pyStrOpt : Option Str → Str
  | none => "None".data
  | some s => s

/-- Embedding of the infobox block assembled by `EWEpisode._parse_episode`
(lines 194 to 222), one list entry per Python list entry.  The formatted
publish date is passed in already rendered, since date formatting is not
at issue here; the duration is optional exactly as `_element_text`
returns it. -/
def infoboxLines (number : Int) (title epLink downloadUrl dateStr : Str)
    (duration : Option Str) (hosts : Str) (audio : Audio) : List Str :=
  ["__NOTOC__".data,
   "\x7b\x7bEpisode Infobox".data,
   [],
   "| epnumber=".data ++ intRepr number,
   [],
   "| title1=".data ++ title,
   [],
   "| infopage=".data ++ epLink,
   [],
   "| mp3download=".data ++ downloadUrl,
   [],
   "| date=".data ++ dateStr,
   [],
   "| duration=".data ++ pyStrOpt duration,
   [],
   "| hosts=".data ++ hosts,
   [],
   "| intro=".data ++ pyStrOpt audio.intro,
   []]
  ++ audio.inter.map (fun i => "| interstitials=".data ++ i ++ ['\n'])
  ++ ["| outro=".data ++ pyStrOpt audio.outro,
      [],
      "\x7d\x7d".data,
      "\x7b\x7b#vardefine:downloadlink|".data ++ downloadUrl ++ "\x7d\x7d".data]

/-! ### Generic lemmas about the string model -/

theorem startsWith_nil (s : Str) : startsWith s [] = true := by
  cases s <;> rfl

theorem startsWith_append_self (a x : Str) : startsWith (a ++ x) a = true := by
  induction a with
  | nil => exact startsWith_nil x
  | cons c cs ih => simp [startsWith, ih]

theorem startsWith_eq_false_of_take (p a x : Str)
    (h : startsWith a (p.take a.length) = false) :
    startsWith (a ++ x) p = false := by
  induction a generalizing p with
  | nil =>
    simp only [List.length_nil, List.take_zero, startsWith_nil] at h
    exact absurd h (by simp)
  | cons d ds ih =>
    cases p with
    | nil => rw [List.take_nil, startsWith_nil] at h; exact absurd h (by simp)
    | cons c cs =>
      simp only [List.length_cons, List.take_succ_cons, startsWith] at h
      simp only [List.cons_append, startsWith, List.append_eq]
      rcases Bool.and_eq_false_iff.mp h with h1 | h2
      · rw [h1]; rfl
      · rw [ih cs h2, Bool.and_false]

theorem pyReplace_swap_id (page : Str) (h : '_' ∉ page) :
    pyReplace '_' ' ' (pyReplace ' ' '_' page) = page := by
  unfold pyReplace
  rw [List.map_map]
  have : ∀ c ∈ page, ((fun c => if c = '_' then ' ' else c) ∘
      fun c => if c = ' ' then '_' else c) c = id c := by
    intro c hc
    have hcu : c ≠ '_' := fun e => h (e ▸ hc)
    by_cases hsp : c = ' '
    · subst hsp; simp
    · simp [hsp, hcu]
  rw [List.map_congr_left this, List.map_id]

theorem dropWhile_eq_self_of_all (p : Char → Bool) (l : Str)
    (h : ∀ c ∈ l, p c = false) : l.dropWhile p = l := by
  cases l with
  | nil => rfl
  | cons c cs => rw [List.dropWhile_cons, h c (by simp)]; simp

theorem pyStrip_of_no_ws (l : Str) (h : ∀ c ∈ l, pyWs c = false) :
    pyStrip l = l := by
  unfold pyStrip
  rw [dropWhile_eq_self_of_all _ l h,
    dropWhile_eq_self_of_all _ l.reverse (fun c hc => h c (List.mem_reverse.mp hc)),
    List.reverse_reverse]

theorem pySplitAux_word (w : Str) (hw : ∀ c ∈ w, pyWs c = false) :
    ∀ (s acc : Str), pySplitAux (w ++ s) acc = pySplitAux s (w.reverse ++ acc) := by
  induction w with
  | nil => intro s acc; simp
  | cons c cs ih =>
    intro s acc
    have hc : pyWs c = false := hw c (by simp)
    have hcs : ∀ x ∈ cs, pyWs x = false := fun x hx => hw x (by simp [hx])
    simp only [List.cons_append, pySplitAux, List.append_eq]
    rw [if_neg (by simp [hc]), ih hcs s (c :: acc)]
    congr 1
    simp

theorem pySplit_word_cons (w s : Str) (hw0 : w ≠ [])
    (hw : ∀ c ∈ w, pyWs c = false) :
    pySplit (w ++ ' ' :: s) = w :: pySplit s := by
  unfold pySplit
  rw [pySplitAux_word w hw (' ' :: s) [], List.append_nil]
  cases hrev : w.reverse with
  | nil => exact absurd (by simpa using congrArg List.reverse hrev) hw0
  | cons a as =>
    simp only [pySplitAux, if_pos (by decide : pyWs ' ' = true)]
    rw [← hrev, List.reverse_reverse]

/-! ### Lemmas about decimal numerals and Python int parsing -/

theorem mem_decimalRepr_isDigit (n : Nat) :
    ∀ c ∈ decimalRepr n, c.isDigit = true := by
  intro c hc
  unfold decimalRepr at hc
  by_cases h0 : n = 0
  · rw [if_pos h0] at hc
    simp only [List.mem_singleton] at hc
    subst hc; decide
  · rw [if_neg h0] at hc
    rw [List.mem_reverse, List.mem_map] at hc
    obtain ⟨d, hd, rfl⟩ := hc
    have hlt : d < 10 := Nat.digits_lt_base (by norm_num) hd
    unfold dChar
    interval_cases d <;> decide

theorem decimalRepr_ne_nil (n : Nat) : decimalRepr n ≠ [] := by
  unfold decimalRepr
  by_cases h0 : n = 0
  · rw [if_pos h0]; simp
  · rw [if_neg h0]
    simp [Nat.digits_ne_nil_iff_ne_zero.mpr h0]

theorem pyWs_of_isDigit (c : Char) (h : c.isDigit = true) : pyWs c = false := by
  simp only [pyWs, Bool.or_eq_false_iff, beq_eq_false_iff_ne, ne_eq]
  refine ⟨⟨⟨⟨⟨?_, ?_⟩, ?_⟩, ?_⟩, ?_⟩, ?_⟩ <;>
    (intro e; subst e; exact absurd h (by decide))

theorem ne_underscore_of_isDigit (c : Char) (h : c.isDigit = true) :
    ¬(c = '_') := fun e => by subst e; exact absurd h (by decide)

theorem natOfDigits_append_one (l : Str) (c : Char) :
    natOfDigits (l ++ [c]) = 10 * natOfDigits l + (c.toNat - 48) := by
  unfold natOfDigits
  rw [List.foldl_append, List.foldl_cons, List.foldl_nil]

theorem dChar_toNat (d : Nat) (h : d < 10) : (dChar d).toNat = 48 + d := by
  interval_cases d <;> decide

theorem natOfDigits_dChar (ds : List Nat) (h : ∀ d ∈ ds, d < 10) :
    natOfDigits ((ds.map dChar).reverse) = Nat.ofDigits 10 ds := by
  induction ds with
  | nil => simp [natOfDigits, Nat.ofDigits]
  | cons d ds ih =>
    simp only [List.map_cons, List.reverse_cons]
    rw [natOfDigits_append_one, ih (fun x hx => h x (List.mem_cons_of_mem _ hx)),
      dChar_toNat d (h d (List.mem_cons_self _ _)), Nat.ofDigits_cons]
    omega

theorem natOfDigits_decimalRepr (n : Nat) : natOfDigits (decimalRepr n) = n := by
  unfold decimalRepr
  by_cases h0 : n = 0
  · rw [if_pos h0, h0]; rfl
  · rw [if_neg h0,
      natOfDigits_dChar _ (fun d hd => Nat.digits_lt_base (by norm_num) hd),
      Nat.ofDigits_digits]

theorem digitsTail_of_digits (l : Str) (h : ∀ c ∈ l, c.isDigit = true) :
    digitsTail l = true := by
  induction l with
  | nil => rfl
  | cons c cs ih =>
    have hc := h c (by simp)
    have hcu := ne_underscore_of_isDigit c hc
    cases cs with
    | nil => simp [digitsTail, hcu, hc]
    | cons d ds =>
      have hrec : digitsTail (d :: ds) = true := ih (fun x hx => h x (by simp [hx]))
      simp [digitsTail, hcu, hc, hrec]

theorem numBody_of_digits (l : Str) (h0 : l ≠ []) (h : ∀ c ∈ l, c.isDigit = true) :
    numBody l = true := by
  cases l with
  | nil => exact absurd rfl h0
  | cons c cs =>
    simp [numBody, h c (by simp),
      digitsTail_of_digits cs (fun x hx => h x (by simp [hx]))]

theorem filter_no_underscore (l : Str) (h : ∀ c ∈ l, c.isDigit = true) :
    l.filter (fun c => !(c == '_')) = l := by
  rw [List.filter_eq_self]
  intro a ha
  simp [ne_underscore_of_isDigit a (h a ha)]

theorem pyInt_decimalRepr (n : Nat) : pyInt (decimalRepr n) = some (n : Int) := by
  unfold pyInt
  have hdig := mem_decimalRepr_isDigit n
  rw [pyStrip_of_no_ws _ (fun c hc => pyWs_of_isDigit c (hdig c hc))]
  cases hrepr : decimalRepr n with
  | nil => exact absurd hrepr (decimalRepr_ne_nil n)
  | cons c cs =>
    have hc : c.isDigit = true := hdig c (by rw [hrepr]; simp)
    have hplus : ¬(c = '+') := fun e => by subst e; exact absurd hc (by decide)
    have hminus : ¬(c = '-') := fun e => by subst e; exact absurd hc (by decide)
    have hbody : numBody (c :: cs) = true := by
      rw [← hrepr]
      exact numBody_of_digits _ (decimalRepr_ne_nil n) hdig
    simp only [pyIntCore, if_neg hplus, if_neg hminus, if_pos hbody]
    congr 1
    unfold intValOf
    rw [← hrepr, filter_no_underscore _ hdig, natOfDigits_decimalRepr]

theorem pyRstripColon_append_colon (l : Str) (h : ∀ c ∈ l, c.isDigit = true) :
    pyRstripColon (l ++ [':']) = l := by
  unfold pyRstripColon
  rw [List.reverse_append]
  have : (([':'] : Str).reverse ++ l.reverse).dropWhile (fun c => c == ':') =
      l.reverse.dropWhile (fun c => c == ':') := by
    simp [List.dropWhile_cons]
  rw [this, dropWhile_eq_self_of_all _ l.reverse ?_, List.reverse_reverse]
  intro c hc
  have := h c (List.mem_reverse.mp hc)
  simp [ne_underscore_of_isDigit]
  exact fun e => by subst e; exact absurd this (by decide)

/-! ### Lemmas about the feed-splitting loop -/

theorem splitFeedAux_skip (i : FeedItem) (hi : i.title = none)
    (post : List FeedItem) :
    ∀ (pre : List FeedItem) (m : EpMap),
      splitFeedAux (pre ++ i :: post) m = splitFeedAux (pre ++ post) m := by
  intro pre
  induction pre with
  | nil => intro m; simp only [List.nil_append, splitFeedAux, hi]
  | cons j pre ih =>
    intro m
    cases ht : j.title with
    | none => simp only [List.cons_append, splitFeedAux, ht]; exact ih m
    | some t =>
      cases hd : j.description with
      | none => simp only [List.cons_append, splitFeedAux, ht, hd]
      | some dsc =>
        cases hx : extractEpisode t with
        | none => simp only [List.cons_append, splitFeedAux, ht, hd, hx]
        | some n =>
          simp only [List.cons_append, splitFeedAux, ht, hd, hx]
          exact ih _

theorem splitFeedAux_stop (i : FeedItem) (t : Str) (hi : i.title = some t)
    (hd : i.description = none) (post : List FeedItem) :
    ∀ (pre : List FeedItem) (m : EpMap),
      splitFeedAux (pre ++ i :: post) m = splitFeedAux pre m := by
  intro pre
  induction pre with
  | nil => intro m; simp only [List.nil_append, splitFeedAux, hi, hd]
  | cons j pre ih =>
    intro m
    cases ht : j.title with
    | none => simp only [List.cons_append, splitFeedAux, ht]; exact ih m
    | some u =>
      cases hjd : j.description with
      | none => simp only [List.cons_append, splitFeedAux, ht, hjd]
      | some dsc =>
        cases hx : extractEpisode u with
        | none => simp only [List.cons_append, splitFeedAux, ht, hjd, hx]
        | some n =>
          simp only [List.cons_append, splitFeedAux, ht, hjd, hx]
          exact ih _

theorem splitFeedAux_ok_append (items : List FeedItem)
    (hns : ∀ j ∈ items, ∀ u, j.title = some u → j.description ≠ none) :
    ∀ (m0 m : EpMap) (rest : List FeedItem), splitFeedAux items m0 = .ok m →
      splitFeedAux (items ++ rest) m0 = splitFeedAux rest m := by
  induction items with
  | nil =>
    intro m0 m rest h
    injection h with h
    subst h
    rw [List.nil_append]
  | cons j items ih =>
    intro m0 m rest h
    cases ht : j.title with
    | none =>
      simp only [splitFeedAux, ht] at h
      simp only [List.cons_append, splitFeedAux, ht]
      exact ih (fun x hx u hu => hns x (List.mem_cons_of_mem _ hx) u hu) m0 m rest h
    | some t =>
      have hdne := hns j (List.mem_cons_self _ _) t ht
      cases hd : j.description with
      | none => exact absurd hd hdne
      | some dsc =>
        cases hx : extractEpisode t with
        | none =>
          simp only [splitFeedAux, ht, hd, hx] at h
          exact absurd h (by simp)
        | some n =>
          simp only [splitFeedAux, ht, hd, hx] at h
          simp only [List.cons_append, splitFeedAux, ht, hd, hx]
          exact ih (fun x hx2 u hu => hns x (List.mem_cons_of_mem _ hx2) u hu) _ m rest h

/-! ### Claim theorems -/

/-- Claim C1, counterexample: for the page name "a_b" (which contains an
underscore) and anchor text "x", classifying the internal-wiki URL built by
joining the base URL with the page name does not give back the page name:
the underscore is turned into a space, so the result is "[a b|x]" rather
than "[a_b|x]". -/
theorem c1_roundtrip_cex :
    wikifyHref (ewWiki ++ pyReplace ' ' '_' "a_b".data) "x".data ≠
      "[".data ++ "a_b".data ++ "|".data ++ "x".data ++ "]".data ∧
    wikifyHref (ewWiki ++ pyReplace ' ' '_' "a_b".data) "x".data =
      "[a b|x]".data := by
  constructor <;> decide

/-- Claim C1 (amended): for every page name containing no underscore and
every anchor text, classifying the href obtained by joining the known wiki
base URL with the page name (spaces replaced by underscores) together with
the anchor yields exactly the piped internal link with the page name and
the original anchor text. -/
theorem c1_roundtrip_amended (page anchor : Str) (h : '_' ∉ page) :
    wikifyHref (ewWiki ++ pyReplace ' ' '_' page) anchor =
      "[".data ++ page ++ "|".data ++ anchor ++ "]".data := by
  unfold wikifyHref
  rw [startsWith_eq_false_of_take fgPlayers ewWiki _ (by decide),
    startsWith_eq_false_of_take fgStatss ewWiki _ (by decide),
    startsWith_append_self,
    show (40 : Nat) = ewWiki.length from rfl, List.drop_left,
    pyReplace_swap_id page h]
  rfl

/-- Claim C1, witness: the amended round-trip evaluated at the page name
"Sam Miller" with anchor text "anchor". -/
theorem c1_roundtrip_witness :
    wikifyHref (ewWiki ++ pyReplace ' ' '_' "Sam Miller".data) "anchor".data =
      "[".data ++ "Sam Miller".data ++ "|".data ++ "anchor".data ++ "]".data :=
  c1_roundtrip_amended "Sam Miller".data "anchor".data (by decide)

/-- Claim C2: feed splitting is two-tier.  An item without a title is
skipped and the scan continues; an item with a title but no description
stops the scan, so the items after it never enter the index; and an item
with both fields, appended after a scan that completed without stopping,
is stored under its episode number, overwriting any earlier entry for the
same number. -/
theorem c2_split_feed :
    (∀ (pre post : List FeedItem) (i : FeedItem), i.title = none →
      splitFeed (pre ++ i :: post) = splitFeed (pre ++ post)) ∧
    (∀ (pre post : List FeedItem) (i : FeedItem) (t : Str),
      i.title = some t → i.description = none →
      splitFeed (pre ++ i :: post) = splitFeed pre) ∧
    (∀ (items : List FeedItem) (m : EpMap) (i : FeedItem) (t d : Str) (n : Int),
      (∀ j ∈ items, ∀ u, j.title = some u → j.description ≠ none) →
      splitFeed items = .ok m → i.title = some t → i.description = some d →
      extractEpisode t = some n →
      splitFeed (items ++ [i]) = .ok (updateEp m n i)) := by
  refine ⟨fun pre post i hi => splitFeedAux_skip i hi post pre emptyEpMap,
    fun pre post i t ht hd => splitFeedAux_stop i t ht hd post pre emptyEpMap,
    fun items m i t d n hns hok ht hd hx => ?_⟩
  unfold splitFeed at *
  rw [splitFeedAux_ok_append items hns emptyEpMap m [i] hok]
  simp only [splitFeedAux, ht, hd, hx]

/-- Claim C2, witness: a titleless item is skipped, a description-less
titled item stops the scan, and a complete item is stored under its
episode number. -/
theorem c2_split_feed_witness :
    splitFeed [⟨none, none⟩,
        ⟨some "Effectively Wild Episode 5: Hi".data, some "d".data⟩] =
      splitFeed [⟨some "Effectively Wild Episode 5: Hi".data, some "d".data⟩] ∧
    splitFeed [⟨some "t".data, none⟩, ⟨some "u".data, some "v".data⟩] =
      splitFeed [] ∧
    splitFeed [⟨some "Effectively Wild Episode 5: Hi".data, some "d".data⟩] =
      .ok (updateEp emptyEpMap 5
        ⟨some "Effectively Wild Episode 5: Hi".data, some "d".data⟩) :=
  ⟨c2_split_feed.1 [] [⟨some "Effectively Wild Episode 5: Hi".data, some "d".data⟩]
      ⟨none, none⟩ rfl,
    c2_split_feed.2.1 [] [⟨some "u".data, some "v".data⟩]
      ⟨some "t".data, none⟩ "t".data rfl rfl,
    c2_split_feed.2.2 [] emptyEpMap
      ⟨some "Effectively Wild Episode 5: Hi".data, some "d".data⟩
      "Effectively Wild Episode 5: Hi".data "d".data 5
      (by simp) rfl rfl rfl (by decide)⟩

/-- Claim C3: a title of the form "(word) (word) Episode (decimal N): (rest)"
extracts exactly N; when the 4th whitespace token does not parse as an int
after stripping trailing colons, extraction fails; and such a failure
propagates out of the feed-splitting loop as an exception. -/
theorem c3_episode_number (s1 s2 rest : Str) (N : Nat)
    (h1 : s1 ≠ []) (h2 : ∀ c ∈ s1, pyWs c = false)
    (h3 : s2 ≠ []) (h4 : ∀ c ∈ s2, pyWs c = false) :
    extractEpisode (s1 ++ ' ' :: (s2 ++ ' ' :: ("Episode".data ++ ' ' ::
      ((decimalRepr N ++ [':']) ++ ' ' :: rest)))) = some (N : Int) ∧
    (∀ (title w : Str), (pySplit title).get? 3 = some w →
      pyInt (pyRstripColon w) = none → extractEpisode title = none) ∧
    (∀ (items : List FeedItem) (m : EpMap) (i : FeedItem) (t d : Str)
      (post : List FeedItem),
      (∀ j ∈ items, ∀ u, j.title = some u → j.description ≠ none) →
      splitFeed items = .ok m → i.title = some t → i.description = some d →
      extractEpisode t = none →
      splitFeed (items ++ i :: post) = .error ()) := by
  refine ⟨?_, ?_, ?_⟩
  · have hnum_ne : (decimalRepr N ++ [':'] : Str) ≠ [] := by simp
    have hnum_ws : ∀ c ∈ (decimalRepr N ++ [':'] : Str), pyWs c = false := by
      intro c hc
      rcases List.mem_append.mp hc with hcl | hcr
      · exact pyWs_of_isDigit c (mem_decimalRepr_isDigit N c hcl)
      · simp only [List.mem_singleton] at hcr; subst hcr; decide
    unfold extractEpisode
    rw [pySplit_word_cons s1 _ h1 h2, pySplit_word_cons s2 _ h3 h4,
      pySplit_word_cons "Episode".data _ (by decide) (by decide),
      pySplit_word_cons _ _ hnum_ne hnum_ws]
    have hget : (s1 :: s2 :: "Episode".data ::
        ((decimalRepr N ++ [':']) : Str) :: pySplit rest).get? 3 =
        some (decimalRepr N ++ [':']) := rfl
    rw [hget]
    show pyInt (pyRstripColon (decimalRepr N ++ [':'])) = some (N : Int)
    rw [pyRstripColon_append_colon _ (mem_decimalRepr_isDigit N),
      pyInt_decimalRepr]
  · intro title w hget hint
    unfold extractEpisode
    rw [hget]
    simpa using hint
  · intro items m i t d post hns hok ht hd hx
    unfold splitFeed at *
    rw [splitFeedAux_ok_append items hns emptyEpMap m (i :: post) hok]
    simp only [splitFeedAux, ht, hd, hx]

/-- Claim C3, witness: the title "Effectively Wild Episode 2109: And
Teoscar" extracts 2109; "Effectively Wild Episode x: y" fails to extract
and makes the feed split raise. -/
theorem c3_episode_number_witness :
    extractEpisode ("Effectively".data ++ ' ' :: ("Wild".data ++ ' ' ::
      ("Episode".data ++ ' ' :: ((decimalRepr 2109 ++ [':']) ++ ' ' ::
        "And Teoscar".data)))) = some (2109 : Int) ∧
    extractEpisode "Effectively Wild Episode x: y".data = none ∧
    splitFeed [⟨some "Effectively Wild Episode x: y".data, some "d".data⟩] =
      .error () := by
  have h := c3_episode_number "Effectively".data "Wild".data "And Teoscar".data 2109
    (by decide) (by decide) (by decide) (by decide)
  exact ⟨h.1,
    h.2.1 "Effectively Wild Episode x: y".data "x:".data (by decide) (by decide),
    h.2.2 [] emptyEpMap ⟨some "Effectively Wild Episode x: y".data, some "d".data⟩
      "Effectively Wild Episode x: y".data "d".data []
      (by simp) rfl rfl rfl (by decide)⟩

/-- Claim C4: for every rebuilt audio-paragraph line whose first colon is
at index i, the segment value is the text starting two characters past
that colon; a line containing "intro" assigns the intro field, a line
containing "outro" but not "intro" assigns the outro field, any other line
appends the value to the interstitials in order; and when several lines of
a paragraph match intro (or outro), the value of the last such line is the
one retained. -/
theorem c4_audio_lines (a : Audio) (line : Str) (i : Nat)
    (hidx : line.findIdx? (fun c => c == ':') = some i) :
    (containsSub line "intro".data = true →
      processAudioLine a line = { a with intro := some (line.drop (i + 2)) }) ∧
    (containsSub line "intro".data = false → containsSub line "outro".data = true →
      processAudioLine a line = { a with outro := some (line.drop (i + 2)) }) ∧
    (containsSub line "intro".data = false → containsSub line "outro".data = false →
      processAudioLine a line = { a with inter := a.inter ++ [line.drop (i + 2)] }) ∧
    (∀ ls, containsSub line "intro".data = true →
      (processAudioLines a (ls ++ [line])).intro = some (line.drop (i + 2))) ∧
    (∀ ls, containsSub line "intro".data = false →
      containsSub line "outro".data = true →
      (processAudioLines a (ls ++ [line])).outro = some (line.drop (i + 2))) := by
  have hfold : ∀ ls, processAudioLines a (ls ++ [line]) =
      processAudioLine (processAudioLines a ls) line := by
    intro ls
    unfold processAudioLines
    rw [List.foldl_append, List.foldl_cons, List.foldl_nil]
  refine ⟨fun hin => ?_, fun hni hout => ?_, fun hni hno => ?_,
    fun ls hin => ?_, fun ls hni hout => ?_⟩
  · simp [processAudioLine, hidx, hin]
  · simp [processAudioLine, hidx, hni, hout]
  · simp [processAudioLine, hidx, hni, hno]
  · rw [hfold ls]
    simp [processAudioLine, hidx, hin]
  · rw [hfold ls]
    simp [processAudioLine, hidx, hni, hout]

/-- Claim C4, witness: an intro line assigns the intro field with the text
two characters past the colon, and of two outro lines the later one wins. -/
theorem c4_audio_lines_witness :
    processAudioLine ⟨none, none, []⟩ "Audio intro: Song by X".data =
      { intro := some "Song by X".data, outro := none, inter := [] } ∧
    (processAudioLines ⟨none, none, []⟩
      ["Audio outro: A".data, "Audio outro: B".data]).outro = some "B".data := by
  have h := c4_audio_lines ⟨none, none, []⟩ "Audio intro: Song by X".data 11 (by decide)
  have h2 := c4_audio_lines ⟨none, none, []⟩ "Audio outro: B".data 11 (by decide)
  constructor
  · rw [h.1 (by decide)]
    decide
  · have hb := h2.2.2.2.2 ["Audio outro: A".data] (by decide) (by decide)
    have e : ("Audio outro: B".data).drop (11 + 2) = "B".data := by decide
    rw [e] at hb
    exact hb

/-- Claim C6: when the summary begins with one of the two two-host lead-in
phrases, both hosts are assigned with display order given by episode-number
parity (even gives Meg Rowley then Ben Lindbergh, odd the reverse), both
host categories are added, and the host order for episode n differs from
that for episode n + 1; for every other summary the hosts field stays blank
and only the category of each host whose bare name occurs as a substring of
the summary is added. -/
theorem c6_host_detection (n : Int) (s : Str) :
    ((startsWith s benMegLeadAnd || startsWith s benMegLeadComma) = true →
      (n % 2 = 0 → (parseHosts n s).1 = megBenHosts) ∧
      (n % 2 ≠ 0 → (parseHosts n s).1 = benMegHosts) ∧
      (parseHosts n s).2 = [benCat, megCat] ∧
      (parseHosts n s).1 ≠ (parseHosts (n + 1) s).1) ∧
    ((startsWith s benMegLeadAnd || startsWith s benMegLeadComma) = false →
      (parseHosts n s).1 = [] ∧
      (parseHosts n s).2 =
        (if containsSub s "Ben Lindbergh".data then [benCat] else []) ++
        (if containsSub s "Meg Rowley".data then [megCat] else [])) := by
  constructor
  · intro hlead
    have hme : n % 2 = 0 ∨ n % 2 = 1 := Int.emod_two_eq_zero_or_one n
    refine ⟨fun h0 => by simp [parseHosts, hlead, h0], fun h1 => ?_, ?_, ?_⟩
    · have hne : ¬(n % 2 = 0) := h1
      simp [parseHosts, hlead, hne]
    · simp [parseHosts, hlead]
    · rcases hme with h0 | h1
      · have hsucc : ¬((n + 1) % 2 = 0) := by omega
        simp only [parseHosts, hlead, if_true, if_pos h0, if_neg hsucc]
        decide
      · have h0 : ¬(n % 2 = 0) := by omega
        have hsucc : (n + 1) % 2 = 0 := by omega
        simp only [parseHosts, hlead, if_true, if_neg h0, if_pos hsucc]
        decide
  · intro hlead
    constructor
    · simp [parseHosts, hlead]
    · simp [parseHosts, hlead]

/-- Claim C6, witness: a lead-in summary at episodes 2 and 3, and a
summary mentioning only Ben Lindbergh at episode 5. -/
theorem c6_host_detection_witness :
    (parseHosts 2 "Ben Lindbergh and Meg Rowley banter".data).1 = megBenHosts ∧
    (parseHosts 2 "Ben Lindbergh and Meg Rowley banter".data).1 ≠
      (parseHosts 3 "Ben Lindbergh and Meg Rowley banter".data).1 ∧
    (parseHosts 5 "Ben Lindbergh answers emails".data).1 = [] ∧
    (parseHosts 5 "Ben Lindbergh answers emails".data).2 = [benCat] := by
  have h1 := (c6_host_detection 2 "Ben Lindbergh and Meg Rowley banter".data).1 (by decide)
  have h2 := (c6_host_detection 5 "Ben Lindbergh answers emails".data).2 (by decide)
  exact ⟨h1.1 (by decide), h1.2.2.2, h2.1, by rw [h2.2]; decide⟩

/-- Claim C7: for every input string containing a smart double quote or a
smart apostrophe, normalization keeps the length, replaces every smart
double quote (either direction) by an ASCII double quote and every smart
apostrophe by an ASCII apostrophe, and leaves every other character
unchanged, in order. -/
theorem c7_smart_quotes (s : Str)
    (hs : ∃ c ∈ s, c = '“' ∨ c = '”' ∨ c = '’') :
    (cleanSmartQuotes s).length = s.length ∧
    ∀ i, (cleanSmartQuotes s).get? i =
      (s.get? i).map (fun c =>
        if c = '“' ∨ c = '”' then '"' else if c = '’' then '\'' else c) := by
  clear hs
  unfold cleanSmartQuotes
  rw [List.map_map]
  constructor
  · rw [List.length_map]
  · intro i
    rw [List.get?_map]
    cases s.get? i with
    | none => rfl
    | some c =>
      simp only [Option.map_some']
      congr 1
      by_cases h1 : c = '“' ∨ c = '”'
      · simp only [Function.comp_apply, if_pos h1]
        rw [if_neg (by decide : ¬('"' = '’'))]
      · simp only [Function.comp_apply, if_neg h1]

/-- Claim C7, witness: normalization of the concrete string with one smart
double quote and one smart apostrophe, evaluated at index 1. -/
theorem c7_smart_quotes_witness :
    (cleanSmartQuotes "a“b’c".data).length = ("a“b’c".data : Str).length ∧
    (cleanSmartQuotes "a“b’c".data).get? 1 = some '"' := by
  have h := c7_smart_quotes "a“b’c".data (by decide)
  exact ⟨h.1, by rw [h.2 1]; decide⟩

/-! ### Lemmas about the email scan -/

theorem findEmailsScan_stop (n k : Int) (q : Str) (post : List (Int × Str))
    (hk : k < n) :
    ∀ pre, findEmailsScan n (pre ++ (k, q) :: post) = findEmailsScan n pre := by
  intro pre
  induction pre with
  | nil =>
    simp only [List.nil_append, findEmailsScan]
    rw [if_neg (by omega), if_pos hk]
  | cons r pre ih =>
    obtain ⟨a, b⟩ := r
    simp only [List.cons_append, findEmailsScan, List.append_eq]
    by_cases h1 : a = n
    · rw [if_pos h1, if_pos h1, ih]
    · by_cases h2 : a < n
      · rw [if_neg h1, if_pos h2, if_neg h1, if_pos h2]
      · rw [if_neg h1, if_neg h2, if_neg h1, if_neg h2, ih]

theorem findEmailsScan_no_match (n : Int) (db : List (Int × Str))
    (h : ∀ r ∈ db, r.1 ≠ n) : findEmailsScan n db = [] := by
  induction db with
  | nil => rfl
  | cons r rest ih =>
    obtain ⟨a, b⟩ := r
    have ha : ¬(a = n) := h (a, b) (by simp)
    simp only [findEmailsScan]
    rw [if_neg ha]
    by_cases h2 : a < n
    · rw [if_pos h2]
    · rw [if_neg h2]
      exact ih (fun r hr => h r (by simp [hr]))

theorem findEmailsScan_all_ge (n : Int) (db : List (Int × Str))
    (h : ∀ r ∈ db, n ≤ r.1) :
    findEmailsScan n db =
      ((db.filter (fun r => r.1 == n)).map
        (fun r => [([] : Str), "* ".data ++ pyStrip r.2])).flatten := by
  induction db with
  | nil => rfl
  | cons r rest ih =>
    obtain ⟨a, b⟩ := r
    have hrec := ih (fun r hr => h r (by simp [hr]))
    by_cases h1 : a = n
    · subst h1
      simp [findEmailsScan, List.filter_cons, hrec]
    · have h2 : ¬(a < n) := by
        have := h (a, b) (by simp)
        omega
      simp [findEmailsScan, if_neg h1, if_neg h2, List.filter_cons, h1, hrec]

/-- Claim C5, counterexample: with the single matching record (5, "q1"),
the generated section is the header, then the question line, then a blank
line: the question line is not preceded by a blank line, contrary to the
claim, which would give the header, a blank, then the question. -/
theorem c5_email_section_cex :
    findEmails [(5, "q1".data)] 5 =
      [emailHeader, "* q1".data, ([] : Str)] ∧
    findEmails [(5, "q1".data)] 5 ≠
      [emailHeader, ([] : Str), "* q1".data] := by
  constructor <;> decide

/-- Claim C5 (amended): with zero matching records the output is exactly
the placeholder block; the scan stops at the first record whose episode
number is strictly below the target, so later records never contribute;
and with matching records (all scanned numbers at least the target) the
output is the header followed by the question lines in ascending (display)
order, each question line followed by exactly one blank line (the blank
precedes its question in the raw scan and lands after it when the list is
reversed). -/
theorem c5_email_section (db : List (Int × Str)) (n : Int) :
    ((∀ r ∈ db, r.1 ≠ n) → findEmails db n = noEmailsFound) ∧
    (∀ (pre post : List (Int × Str)) (k : Int) (q : Str), k < n →
      findEmails (pre ++ (k, q) :: post) n = findEmails pre n) ∧
    ((∀ r ∈ db, n ≤ r.1) → (∃ r ∈ db, r.1 = n) →
      findEmails db n = emailHeader ::
        ((db.filter (fun r => r.1 == n)).reverse.map
          (fun r => ["* ".data ++ pyStrip r.2, ([] : Str)])).flatten) := by
  refine ⟨fun h => ?_, fun pre post k q hk => ?_, fun hge hex => ?_⟩
  · unfold findEmails
    rw [if_pos (findEmailsScan_no_match n db h)]
  · unfold findEmails
    rw [findEmailsScan_stop n k q post hk pre]
  · have hscan := findEmailsScan_all_ge n db hge
    have hne : findEmailsScan n db ≠ [] := by
      obtain ⟨r, hr, hrn⟩ := hex
      have hmem : r ∈ db.filter (fun r => r.1 == n) :=
        List.mem_filter.mpr ⟨hr, by simp [hrn]⟩
      rw [hscan]
      cases hf : db.filter (fun r => r.1 == n) with
      | nil => rw [hf] at hmem; exact absurd hmem (List.not_mem_nil r)
      | cons r0 rs => simp
    unfold findEmails
    rw [if_neg hne, hscan, List.reverse_append, List.reverse_flatten,
      List.map_map]
    have hblocks : (db.filter (fun r => r.1 == n)).map
        (List.reverse ∘ fun r => [([] : Str), "* ".data ++ pyStrip r.2]) =
        (db.filter (fun r => r.1 == n)).map
        (fun r => ["* ".data ++ pyStrip r.2, ([] : Str)]) :=
      List.map_congr_left (fun r _ => rfl)
    rw [hblocks, ← List.map_reverse]
    rfl

/-- Claim C5, witness: no matching record gives the placeholder; a record
below the target stops the scan before a later match; two matching records
produce the header then the questions in ascending order, each followed by
one blank line. -/
theorem c5_email_section_witness :
    findEmails [(7, "a".data), (6, "b".data)] 5 = noEmailsFound ∧
    findEmails [(6, "x".data), (4, "y".data), (5, "z".data)] 5 =
      findEmails [(6, "x".data)] 5 ∧
    findEmails [(5, "q1".data), (5, "q2".data)] 5 =
      [emailHeader, "* q2".data, ([] : Str), "* q1".data, ([] : Str)] := by
  refine ⟨(c5_email_section [(7, "a".data), (6, "b".data)] 5).1 (by decide),
    (c5_email_section [(6, "x".data), (4, "y".data), (5, "z".data)] 5).2.1
      [(6, "x".data)] [(5, "z".data)] 4 "y".data (by decide), ?_⟩
  have h := (c5_email_section [(5, "q1".data), (5, "q2".data)] 5).2.2
    (by decide) ⟨(5, "q1".data), by simp, rfl⟩
  rw [h]
  decide

/-! ### Lemmas about the missing-episode loop -/

theorem missingEpisodes_true_filter (pe : Int → Bool) (l : List Int) :
    missingEpisodes true pe l = l.filter (fun n => !(pe n)) := by
  induction l with
  | nil => rfl
  | cons n rest ih =>
    cases hpe : pe n
    · simp [missingEpisodes, hpe, List.filter_cons, ih]
    · simp [missingEpisodes, hpe, List.filter_cons, ih]

theorem missingEpisodes_false_takeWhile (pe : Int → Bool) (l : List Int) :
    missingEpisodes false pe l = l.takeWhile (fun n => !(pe n)) := by
  induction l with
  | nil => rfl
  | cons n rest ih =>
    cases hpe : pe n
    · simp [missingEpisodes, hpe, List.takeWhile_cons, ih]
    · simp [missingEpisodes, hpe, List.takeWhile_cons, ih]

theorem missingEpisodes_false_pre (pe : Int → Bool) (pre : List Int) (e : Int)
    (post : List Int) (hpre : ∀ x ∈ pre, pe x = false) (he : pe e = true) :
    missingEpisodes false pe (pre ++ e :: post) = pre := by
  induction pre with
  | nil => simp [missingEpisodes, he]
  | cons x pre ih =>
    have hx := hpre x (by simp)
    simp [missingEpisodes, hx, ih (fun y hy => hpre y (by simp [hy]))]

theorem checkedEpisodes_true_all (pe : Int → Bool) (l : List Int) :
    checkedEpisodes true pe l = l := by
  induction l with
  | nil => rfl
  | cons n rest ih =>
    cases hpe : pe n
    · simp [checkedEpisodes, hpe, ih]
    · simp [checkedEpisodes, hpe, ih]

theorem checkedEpisodes_false_pre (pe : Int → Bool) (pre : List Int) (e : Int)
    (post : List Int) (hpre : ∀ x ∈ pre, pe x = false) (he : pe e = true) :
    checkedEpisodes false pe (pre ++ e :: post) = pre ++ [e] := by
  induction pre with
  | nil => simp [checkedEpisodes, he]
  | cons x pre ih =>
    have hx := hpre x (by simp)
    simp [checkedEpisodes, hx, ih (fun y hy => hpre y (by simp [hy]))]

/-- Claim C8: with checkAll set every episode in the (descending) list is
checked and all non-existing ones are selected; with checkAll unset the
walk keeps collecting while pages do not exist, checks exactly the numbers
up to and including the first existing one, and every selected number is
strictly higher than that first existing number. -/
theorem c8_missing_episodes :
    (∀ (pe : Int → Bool) (l : List Int),
      missingEpisodes true pe l = l.filter (fun n => !(pe n))) ∧
    (∀ (pe : Int → Bool) (l : List Int),
      missingEpisodes false pe l = l.takeWhile (fun n => !(pe n))) ∧
    (∀ (pe : Int → Bool) (l : List Int), checkedEpisodes true pe l = l) ∧
    (∀ (pe : Int → Bool) (pre : List Int) (e : Int) (post : List Int),
      (∀ x ∈ pre, pe x = false) → pe e = true →
      checkedEpisodes false pe (pre ++ e :: post) = pre ++ [e]) ∧
    (∀ (pe : Int → Bool) (pre : List Int) (e : Int) (post : List Int),
      (∀ x ∈ pre, pe x = false) → pe e = true →
      List.Pairwise (fun a b => a > b) (pre ++ e :: post) →
      ∀ m ∈ missingEpisodes false pe (pre ++ e :: post), e < m) := by
  refine ⟨missingEpisodes_true_filter, missingEpisodes_false_takeWhile,
    checkedEpisodes_true_all, checkedEpisodes_false_pre,
    fun pe pre e post hpre he hsort m hm => ?_⟩
  rw [missingEpisodes_false_pre pe pre e post hpre he] at hm
  have := (List.pairwise_append.mp hsort).2.2 m hm e (by simp)
  exact this

/-- Claim C8, witness: with pages existing for numbers at most 4, scanning
[6, 5, 4, 3] selects [6, 5] either way, checkAll checks everything, the
default stops checking at 4, and every selected number exceeds 4. -/
theorem c8_missing_episodes_witness :
    missingEpisodes true (fun n => decide (n ≤ 4)) [6, 5, 4, 3] = [6, 5] ∧
    missingEpisodes false (fun n => decide (n ≤ 4)) [6, 5, 4, 3] = [6, 5] ∧
    checkedEpisodes true (fun n => decide (n ≤ 4)) [6, 5, 4, 3] = [6, 5, 4, 3] ∧
    checkedEpisodes false (fun n => decide (n ≤ 4)) [6, 5, 4, 3] = [6, 5, 4] ∧
    (4 : Int) < 6 := by
  refine ⟨?_, ?_, ?_, ?_, ?_⟩
  · rw [c8_missing_episodes.1]; decide
  · rw [c8_missing_episodes.2.1]; decide
  · exact c8_missing_episodes.2.2.1 _ [6, 5, 4, 3]
  · exact c8_missing_episodes.2.2.2.1 (fun n => decide (n ≤ 4)) [6, 5] 4 [3]
      (by decide) (by decide)
  · exact c8_missing_episodes.2.2.2.2 (fun n => decide (n ≤ 4)) [6, 5] 4 [3]
      (by decide) (by decide) (by decide) 6 (by decide)

/-- Claim C9: when the extracted audio segments have no intro
(respectively no outro), the assembled infobox contains the literal line
"| intro=None" (respectively "| outro=None"): the absent segment renders
as the four characters "None", not as an empty field. -/
theorem c9_none_rendering (number : Int) (title epLink downloadUrl dateStr : Str)
    (duration : Option Str) (hosts : Str) (audio : Audio) :
    (audio.intro = none → "| intro=None".data ∈
      infoboxLines number title epLink downloadUrl dateStr duration hosts audio) ∧
    (audio.outro = none → "| outro=None".data ∈
      infoboxLines number title epLink downloadUrl dateStr duration hosts audio) := by
  constructor
  · intro h
    unfold infoboxLines
    apply List.mem_append_left
    apply List.mem_append_left
    have he : "| intro=None".data = "| intro=".data ++ pyStrOpt audio.intro := by
      rw [h]; rfl
    rw [he]
    simp
  · intro h
    unfold infoboxLines
    apply List.mem_append_right
    have he : "| outro=None".data = "| outro=".data ++ pyStrOpt audio.outro := by
      rw [h]; rfl
    rw [he]
    simp
/-- Claim C9, witness: a concrete infobox with neither intro nor outro
contains both literal None lines. -/
theorem c9_none_rendering_witness :
    "| intro=None".data ∈ infoboxLines 2109 "t".data "l".data "u".data "d".data
      none [] ⟨none, none, ["x".data]⟩ ∧
    "| outro=None".data ∈ infoboxLines 2109 "t".data "l".data "u".data "d".data
      none [] ⟨none, none, ["x".data]⟩ :=
  have h := c9_none_rendering 2109 "t".data "l".data "u".data "d".data
    none [] ⟨none, none, ["x".data]⟩
  ⟨h.1 rfl, h.2 rfl⟩

/-- Claim C10: when the spreadsheet download answers with a status outside
the 2xx range, no records are cached, the email lookup returns exactly the
placeholder block without raising, and since the cache counts as loaded
only when non-empty, every lookup that starts from an empty cache attempts
the download again. -/
theorem c10_email_download (resp : HttpResponse) (n : Int)
    (h : ¬(200 ≤ resp.status ∧ resp.status < 300)) :
    findEmailsWithCache [] resp n = .ok (noEmailsFound, [], true) ∧
    (∀ (resp2 : HttpResponse) (n2 : Int) (out : List Str)
      (st : List (Int × Str)) (att : Bool),
      findEmailsWithCache [] resp2 n2 = .ok (out, st, att) → att = true) := by
  constructor
  · unfold findEmailsWithCache loadEmails
    rw [if_pos rfl, if_neg h]
    rfl
  · intro resp2 n2 out st att hcall
    unfold findEmailsWithCache at hcall
    rw [if_pos rfl] at hcall
    cases hl : loadEmails resp2 [] with
    | error e =>
      rw [hl] at hcall
      exact absurd hcall (by simp)
    | ok loaded =>
      rw [hl] at hcall
      injection hcall with h2
      have := congrArg (fun p => p.2.2) h2
      simpa using this.symm

/-- Claim C10, witness: a 404 download on an empty cache yields the
placeholder block, an empty cache, and an attempted download. -/
theorem c10_email_download_witness :
    findEmailsWithCache [] ⟨404, []⟩ 5 = .ok (noEmailsFound, [], true) :=
  (c10_email_download ⟨404, []⟩ 5 (by decide)).1

end EW
